import Mathlib

/-!
Verification of the order-sheet transformation and customer-matching pipeline
(`order-transformation.py` plus `util_and_tests/`): a shallow embedding of the
data model and the operations, followed by theorems settling the specified
properties.  Strings are Lean `String`s processed as ASCII character lists;
pandas DataFrames are lists of records; the sequential row loop of the
assembler is an explicit fold.
-/

namespace LocalBI

/-! ### Character and string utilities (models of Python `str` methods) -/

/-- ASCII whitespace recognized by Python `str.strip` / regex `\s`. -/
def isPySpace (c : Char) : Bool :=
  c = ' ' || c = '\t' || c = '\n' || c = '\r' || c = '\x0b' || c = '\x0c'

/-- Python `str.strip()` on a character list: drop whitespace at both ends. -/
def pyStripL (l : List Char) : List Char :=
  ((l.dropWhile isPySpace).reverse.dropWhile isPySpace).reverse

/-- Python `str.strip()`. -/
def pyStrip (s : String) : String := String.mk (pyStripL s.data)

/-- ASCII lower-casing of one character (model of Python `str.lower`). -/
def lowerChar (c : Char) : Char :=
  if 'A' ≤ c && c ≤ 'Z' then Char.ofNat (c.toNat + 32) else c

/-- ASCII upper-casing of one character (model of Python `str.upper`). -/
def upperChar (c : Char) : Char :=
  if 'a' ≤ c && c ≤ 'z' then Char.ofNat (c.toNat - 32) else c

def lowerL (l : List Char) : List Char := l.map lowerChar

def upperL (l : List Char) : List Char := l.map upperChar

/-- Python `str.upper()`. -/
def pyUpper (s : String) : String := String.mk (upperL s.data)

/-- ASCII decimal digit, the regex `\d` of the date pattern. -/
def isDigitC (c : Char) : Bool := '0' ≤ c && c ≤ '9'

/-- Numeric value of a digit character. -/
def digVal (c : Char) : Nat := c.toNat - 48

/-- The digit character for `n % 10`. -/
def dig (n : Nat) : Char := Char.ofNat (48 + n % 10)

/-- Value of a digit string (model of Python `int` on an all-digit string). -/
def valDigits (l : List Char) : Nat := l.foldl (fun a c => 10 * a + digVal c) 0

/-- ASCII word character, the regex `\w` used by `normalize_name`. -/
def isWordC (c : Char) : Bool :=
  ('a' ≤ c && c ≤ 'z') || ('A' ≤ c && c ≤ 'Z') || ('0' ≤ c && c ≤ '9') || c = '_'

/-- Worker for whitespace collapsing; the flag records whether the previous
character was inside a whitespace run (whose single `' '` is already out). -/
def collapseGo : Bool → List Char → List Char
  | _, [] => []
  | prevSp, c :: r =>
    if isPySpace c then
      if prevSp then collapseGo true r else ' ' :: collapseGo true r
    else c :: collapseGo false r

/-- Model of `re.sub(r"\s+", " ", ·)`: collapse each whitespace run to a single space. -/
def collapseWs (l : List Char) : List Char := collapseGo false l

/-- Whether `pat` occurs at the start of `hay`. -/
def leadsWith : List Char → List Char → Bool
  | [], _ => true
  | _ :: _, [] => false
  | a :: as, b :: bs => a = b && leadsWith as bs

/-- Whether `pat` occurs inside `hay` (at any position). -/
def occursIn (pat : List Char) : List Char → Bool
  | [] => leadsWith pat []
  | hay@(_ :: t) => leadsWith pat hay || occursIn pat t

/-- Python substring test `pat in hay` (pandas `str.contains(pat, regex=False)`). -/
def strContainsB (hay pat : String) : Bool := occursIn pat.data hay.data

/-! ### `contact_matching.normalize_name` -/

/-- Model of `normalize_name`: lowercase, strip punctuation (keep `\w` and `\s`),
collapse whitespace runs, strip the ends. -/
def normalize_name (name : String) : String :=
  String.mk (pyStripL (collapseWs ((lowerL name.data).filter
    (fun c => isWordC c || isPySpace c))))

/-! ### `contact_matching.match_customer`

A `Contact` is one row of the loaded contacts table (`Name`, `ID`,
`Is a Company` already stripped by `load_contacts`); the derived
`_normalized` column is the function `contactNorm`. -/

structure Contact where
  name : String
  id : String
  isCompany : Bool
deriving DecidableEq

/-- The `_normalized` column built by `load_contacts`. -/
def contactNorm (c : Contact) : String := normalize_name c.name

/-- Tier-3 helper: first row attaining the minimal `Name` length.  Models
`companies.sort_values("_len").iloc[0]` (ties resolved to the earliest row). -/
def shortestNameFirst (l : List Contact) : Option Contact :=
  l.foldl (fun best c =>
    match best with
    | none => some c
    | some b => if c.name.length < b.name.length then some c else some b) none

/-- Model of `match_customer`: four-tier resolution of a customer display name. -/
def match_customer (customer_name : String) (contacts : List Contact) :
    String × String :=
  if pyStrip customer_name = "" then ("", "[No name]")
  else
    let name_norm := normalize_name customer_name
    match contacts.filter (fun c => decide (c.name = customer_name)) with
    | e :: es =>
      -- 1. Exact match, prefer company
      (match (e :: es).filter (·.isCompany) with
       | co :: _ => (co.id, "[Exact match, company]")
       | [] => (e.id, "[Exact match]"))
    | [] =>
      match contacts.filter (fun c => decide (contactNorm c = name_norm)) with
      | n :: ns =>
        -- 2. Normalized match, prefer company
        (match (n :: ns).filter (·.isCompany) with
         | co :: _ => (co.id, "[Normalized match, company]")
         | [] => (n.id, "[Normalized match]"))
      | [] =>
        match contacts.filter (fun c => strContainsB (contactNorm c) name_norm) with
        | [c0] =>
          -- 3. Contains match, single hit
          (c0.id, "[Contains match, " ++
            (if c0.isCompany then "company" else "individual") ++ "]")
        | c0 :: c1 :: cs =>
          -- 3. Contains match, multiple hits
          (match (c0 :: c1 :: cs).filter (·.isCompany) with
           | [co] => (co.id, "[Contains match, company, 1 of many]")
           | co0 :: co1 :: cos =>
             ((shortestNameFirst (co0 :: co1 :: cos)).getD co0 |>.id,
              "[Contains match, company, 1 of " ++
                toString (co0 :: co1 :: cos).length ++ "]")
           | [] => (c0.id, "[Contains match, 1 of " ++
                toString (c0 :: c1 :: cs).length ++ "]"))
        | [] =>
          match contacts.filter
              (fun c => !decide (contactNorm c = "") &&
                strContainsB (contactNorm c) name_norm) with
          | r :: rs =>
            -- 4. Reverse contains (contact normalized name contains the query)
            (match (r :: rs).filter (·.isCompany) with
             | co :: _ => (co.id, "[Partial match, company, 1 of " ++
                  toString (r :: rs).length ++ "]")
             | [] => (r.id, "[Partial match, 1 of " ++
                  toString (r :: rs).length ++ "]"))
          | [] => ("", "[No match]")

/-! Tier results as standalone strategies, for the tier-order theorem. -/

def tier_exact (contacts : List Contact) (customer_name : String) :
    Option (String × String) :=
  match contacts.filter (fun c => decide (c.name = customer_name)) with
  | [] => none
  | e :: es =>
    some (match (e :: es).filter (·.isCompany) with
      | co :: _ => (co.id, "[Exact match, company]")
      | [] => (e.id, "[Exact match]"))

def tier_normalized (contacts : List Contact) (customer_name : String) :
    Option (String × String) :=
  match contacts.filter
      (fun c => decide (contactNorm c = normalize_name customer_name)) with
  | [] => none
  | n :: ns =>
    some (match (n :: ns).filter (·.isCompany) with
      | co :: _ => (co.id, "[Normalized match, company]")
      | [] => (n.id, "[Normalized match]"))

def tier_contains (contacts : List Contact) (customer_name : String) :
    Option (String × String) :=
  match contacts.filter
      (fun c => strContainsB (contactNorm c) (normalize_name customer_name)) with
  | [] => none
  | [c0] => some (c0.id, "[Contains match, " ++
      (if c0.isCompany then "company" else "individual") ++ "]")
  | c0 :: c1 :: cs =>
    some (match (c0 :: c1 :: cs).filter (·.isCompany) with
      | [co] => (co.id, "[Contains match, company, 1 of many]")
      | co0 :: co1 :: cos =>
        ((shortestNameFirst (co0 :: co1 :: cos)).getD co0 |>.id,
         "[Contains match, company, 1 of " ++
           toString (co0 :: co1 :: cos).length ++ "]")
      | [] => (c0.id, "[Contains match, 1 of " ++
           toString (c0 :: c1 :: cs).length ++ "]"))

def tier_reverse (contacts : List Contact) (customer_name : String) :
    Option (String × String) :=
  match contacts.filter
      (fun c => !decide (contactNorm c = "") &&
        strContainsB (contactNorm c) (normalize_name customer_name)) with
  | [] => none
  | r :: rs =>
    some (match (r :: rs).filter (·.isCompany) with
      | co :: _ => (co.id, "[Partial match, company, 1 of " ++
           toString (r :: rs).length ++ "]")
      | [] => (r.id, "[Partial match, 1 of " ++
           toString (r :: rs).length ++ "]"))

/-! ### `master_data.align_master_with_dupecheck`

One row of the master catalog after `build_master_with_ext_id` (all columns
the function touches; cells are strings as loaded with `dtype=str`). -/

structure MasterRow where
  parent : String      -- "SKU (Parent)"
  size : String        -- "Size Abbreviation"
  sku : String         -- "SKU"
  upc : String         -- "UPC"
  extId : String       -- "EXT_ID"
  collection : String  -- "Collection"
  season : String      -- "Season"
  faho24 : String      -- "FAHO24 Status"
  spsu25 : String      -- "SPSU25 Status"
  faho25 : String      -- "FAHO25 Status"
  spsu26 : String      -- "SPSU26 Status"
deriving DecidableEq

/-- Model of `_nonempty(col).str.upper()`: strip whitespace, then uppercase. -/
def stripUpper (s : String) : String := String.mk (upperL (pyStripL s.data))

/-- Normalization of the key/used columns
(`SKU (Parent)`, `Size Abbreviation`, `SKU`, `Collection` and the five
status columns; `UPC` and `EXT_ID` are left untouched). -/
def normalizeMasterRow (r : MasterRow) : MasterRow :=
  { r with
    parent := stripUpper r.parent
    size := stripUpper r.size
    sku := stripUpper r.sku
    collection := stripUpper r.collection
    season := stripUpper r.season
    faho24 := stripUpper r.faho24
    spsu25 := stripUpper r.spsu25
    faho25 := stripUpper r.faho25
    spsu26 := stripUpper r.spsu26 }

def BAD_SENTINELS : List String := ["", "N/A", "#N/A", "NA", "NONE"]

/-- The filtering stage of `align_master_with_dupecheck`: normalize the key
columns, drop `EXCLUSIVE` rows (any of the five status columns), the
`HAREM PANTS` collection, SKUs containing `HIC`, and bad/empty keys. -/
def filteredStage (m : List MasterRow) : List MasterRow :=
  (((((((((m.map normalizeMasterRow).filter
    (fun r => !decide (r.season = "EXCLUSIVE"))).filter
    (fun r => !decide (r.faho24 = "EXCLUSIVE"))).filter
    (fun r => !decide (r.spsu25 = "EXCLUSIVE"))).filter
    (fun r => !decide (r.faho25 = "EXCLUSIVE"))).filter
    (fun r => !decide (r.spsu26 = "EXCLUSIVE"))).filter
    (fun r => !decide (r.collection = "HAREM PANTS"))).filter
    (fun r => !strContainsB r.sku "HIC")).filter
    (fun r => !(BAD_SENTINELS.contains r.parent || BAD_SENTINELS.contains r.size)))

/-- Model of `__has_ext`: the stripped `EXT_ID` is non-empty. -/
def hasExtB (r : MasterRow) : Bool := decide (pyStrip r.extId ≠ "")

/-- Model of `__has_upc`: the stripped `UPC` is non-empty. -/
def hasUpcB (r : MasterRow) : Bool := decide (pyStrip r.upc ≠ "")

/-- The stable mergesort on `["__has_ext", "__has_upc"]`, both descending:
rows fall into the four key classes in decreasing order, each class keeping
the original relative order. -/
def sortPref (l : List MasterRow) : List MasterRow :=
  l.filter (fun r => hasExtB r && hasUpcB r) ++
  l.filter (fun r => hasExtB r && !hasUpcB r) ++
  l.filter (fun r => !hasExtB r && hasUpcB r) ++
  l.filter (fun r => !hasExtB r && !hasUpcB r)

/-- The dedup key `(SKU (Parent), Size Abbreviation)`. -/
def keyOf (r : MasterRow) : String × String := (r.parent, r.size)

/-- Model of `drop_duplicates(subset=key, keep="first")`: keep a row iff its key was
not seen earlier. -/
def dedupKey : List MasterRow → List (String × String) → List MasterRow
  | [], _ => []
  | r :: rs, seen =>
    if seen.any (fun k => decide (k = keyOf r)) then dedupKey rs seen
    else r :: dedupKey rs (keyOf r :: seen)

/-- The rows `align_master_with_dupecheck` retains. -/
def alignKept (m : List MasterRow) : List MasterRow :=
  dedupKey (sortPref (filteredStage m)) []

/-- Model of `duplicated(subset=key).any()`: some later row repeats an earlier key. -/
def hasDupKey : List MasterRow → Bool
  | [] => false
  | r :: rs => rs.any (fun x => decide (keyOf x = keyOf r)) || hasDupKey rs

/-- Model of `align_master_with_dupecheck`: filter, preference-sort, dedup, and raise
(`RuntimeError`, modelled as `Except.error`) if duplicate keys remain. -/
def align_master_with_dupecheck (m : List MasterRow) :
    Except String (List MasterRow) :=
  if hasDupKey (alignKept m) then
    Except.error "Master still not unique after alignment."
  else Except.ok (alignKept m)

/-- First row of each preference class in turn: the row `drop_duplicates`
keeps for a key group under the preference sort. -/
def preferredOf (l : List MasterRow) : Option MasterRow :=
  (((l.find? (fun r => hasExtB r && hasUpcB r)).orElse
    (fun _ => l.find? (fun r => hasExtB r && !hasUpcB r))).orElse
    (fun _ => l.find? (fun r => !hasExtB r && hasUpcB r))).orElse
    (fun _ => l.find? (fun r => !hasExtB r && !hasUpcB r))

/-! ### `transform.breakout_matrix` and `transform.enrich_with_master` -/

/-- One breakout record `{parent, size, qty}`. -/
structure BRecord where
  parent : String
  size : String
  qty : Int
deriving DecidableEq

/-- One enriched line item `[sku, barcode, qty, ext_id]`. -/
structure Item where
  sku : String
  barcode : String
  qty : Int
  extId : String
deriving DecidableEq

/-- The exact value of a parsed numeric cell: `num / 10 ^ scale`.  The
representation keeps decimal parsing and truncation computable; `toRat`
gives the value itself. -/
structure DecVal where
  num : Int
  scale : Nat
deriving DecidableEq

/-- The rational value a `DecVal` denotes. -/
def DecVal.toRat (v : DecVal) : ℚ := (v.num : ℚ) / ((10 ^ v.scale : Nat) : ℚ)

/-- Model of `pd.to_numeric(cell, errors="coerce")` on a string cell, for
integer and decimal-fraction literals: strip whitespace, optional sign,
digits with an optional decimal point, giving the exact decimal value.
Anything else coerces to NaN, i.e. `none`.  Scientific notation, infinities
and float64 rounding artifacts (which need about seventeen significant
digits to surface) are outside the model. -/
def parseQty (s : String) : Option DecVal :=
  match pyStripL s.data with
  | [] => none
  | c :: rest =>
    let sgn : Int := if c = '-' then -1 else 1
    let ds := if c = '-' || c = '+' then rest else c :: rest
    let ip := ds.takeWhile (fun x => !decide (x = '.'))
    match ds.dropWhile (fun x => !decide (x = '.')) with
    | [] =>
      if ds ≠ [] ∧ ds.all isDigitC then some ⟨sgn * (valDigits ds : Int), 0⟩
      else none
    | _ :: fp =>
      if (ip ≠ [] ∨ fp ≠ []) ∧ ip.all isDigitC ∧ fp.all isDigitC then
        some ⟨sgn *
          ((valDigits ip * 10 ^ fp.length + valDigits fp : Nat) : Int),
          fp.length⟩
      else none

/-- Python `int()` on an exact decimal value: truncation toward zero. -/
def truncQ (v : DecVal) : Int := v.num.tdiv ((10 ^ v.scale : Nat) : Int)

/-- Model of `breakout_matrix`: expand one order-sheet row (a cell lookup by column
name) into one record per detected size column with non-zero numeric
quantity, the quantity coerced with `int(qty)` (truncation toward zero);
a row with an empty parent-SKU cell yields nothing. -/
def breakout_matrix (cells : String → String)
    (size_cols : List (String × String)) (parent_col : String) :
    List BRecord :=
  let parent := cells parent_col
  if parent = "" then []
  else
    size_cols.filterMap (fun cs =>
      match parseQty (cells cs.1) with
      | none => none
      | some v => if v.num = 0 then none else some ⟨parent, cs.2, truncQ v⟩)

/-- The `merge(..., how="left", on=[parent, size], validate="many_to_one")`
lookup: the first master row with the given key (the key is unique in the
pipeline, where the master has passed `align_master_with_dupecheck`). -/
def lookupMaster (master : List MasterRow) (p s : String) : Option MasterRow :=
  master.find? (fun mr => decide (mr.parent = p ∧ mr.size = s))

/-- The enriched item built from a breakout record and its master row. -/
def mkItem (r : BRecord) (mr : MasterRow) : Item :=
  ⟨mr.sku, mr.upc, r.qty, mr.extId⟩

/-- Model of `merged`: each breakout record paired with its exact-match master row. -/
def mergedOf (master : List MasterRow) (b : List BRecord) :
    List (BRecord × Option MasterRow) :=
  b.map (fun r => (r, lookupMaster master r.parent r.size))

/-- Model of `keep_success`: the exact-pass hits, as enriched items. -/
def keepSuccess (master : List MasterRow) (b : List BRecord) : List Item :=
  (mergedOf master b).filterMap (fun x => x.2.map (mkItem x.1))

/-- Model of `missing`: breakout records the exact pass failed to match. -/
def missingOf (master : List MasterRow) (b : List BRecord) : List BRecord :=
  ((mergedOf master b).filter (fun x => x.2.isNone)).map Prod.fst

/-- Model of `group_S`: missing records with size `"S"`. -/
def groupS (master : List MasterRow) (b : List BRecord) : List BRecord :=
  (missingOf master b).filter (fun r => decide (r.size = "S"))

/-- Model of `group_L`: missing records with size `"L"`. -/
def groupL (master : List MasterRow) (b : List BRecord) : List BRecord :=
  (missingOf master b).filter (fun r => decide (r.size = "L"))

/-- Model of `hits_S`: the `"S" → "SM"` alias retry hits. -/
def hitsS (master : List MasterRow) (b : List BRecord) : List Item :=
  (groupS master b).filterMap
    (fun r => (lookupMaster master r.parent "SM").map (mkItem r))

/-- Model of `hits_L`: the `"L" → "LXL"` alias retry hits. -/
def hitsL (master : List MasterRow) (b : List BRecord) : List Item :=
  (groupL master b).filterMap
    (fun r => (lookupMaster master r.parent "LXL").map (mkItem r))

/-- Model of `enrich_with_master`: the exact-pass hits, then the `S → SM` retry hits,
then the `L → LXL` retry hits, projected to `[sku, barcode, qty, ext_id]`;
records unmatched after all passes are dropped (they are only logged). -/
def enrich_with_master (master : List MasterRow) (b : List BRecord) :
    List Item :=
  keepSuccess master b ++ hitsS master b ++ hitsL master b

/-- The per-record fate of enrichment: exact match first, then the single
applicable size alias (`S → SM`, `L → LXL`), otherwise dropped. -/
def resolveRecord (master : List MasterRow) (r : BRecord) : Option Item :=
  match lookupMaster master r.parent r.size with
  | some mr => some (mkItem r mr)
  | none =>
    if r.size = "S" then (lookupMaster master r.parent "SM").map (mkItem r)
    else if r.size = "L" then (lookupMaster master r.parent "LXL").map (mkItem r)
    else none

def itemQtySum (l : List Item) : Int := (l.map Item.qty).sum

def recQtySum (l : List BRecord) : Int := (l.map BRecord.qty).sum

/-- Sum of the row's size-column values that parse as non-zero numbers
(the exact values, as the claim reads). -/
def nonzeroCellSum (cells : String → String)
    (size_cols : List (String × String)) : ℚ :=
  (size_cols.map (fun cs =>
    match parseQty (cells cs.1) with
    | none => 0
    | some v => if v.num = 0 then 0 else v.toRat)).sum

/-- Sum of the row's size-column values that parse as non-zero numbers,
each truncated toward zero as `breakout_matrix` does with `int(qty)`. -/
def truncNonzeroCellSum (cells : String → String)
    (size_cols : List (String × String)) : Int :=
  (size_cols.map (fun cs =>
    match parseQty (cells cs.1) with
    | none => 0
    | some v => if v.num = 0 then 0 else truncQ v)).sum

/-- Concrete order row with a half-unit quantity in its size-S cell. -/
def halfCells : String → String :=
  fun c => if c = "Parent SKU" then "P1"
    else if c = "S QTY" then "0.5" else ""

/-- Concrete one-row master catalog matching that cell exactly. -/
def halfMaster : List MasterRow :=
  [⟨"P1", "S", "P1-S", "111", "E1", "", "", "", "", "", ""⟩]

/-- Total quantity of the breakout records that match no master row under
the exact pass and the alias passes. -/
def unmatchedQtySum (master : List MasterRow) (b : List BRecord) : Int :=
  recQtySum (b.filter (fun r => decide (resolveRecord master r = none)))

/-! ### `csv_utils.clean_ship_date`

Calendar model of Python `datetime` (years 1–9999, proleptic Gregorian) and
of the regex `(\d{1,2})[/\-](\d{1,2})(?:[/\-](\d{2,4}))?` with `re.search`
semantics (leftmost match, greedy groups with backtracking). -/

structure Date where
  year : Nat
  month : Nat
  day : Nat
deriving DecidableEq

/-- The current instant: calendar date plus seconds since midnight.
`datetime(y, m, d) < datetime.now()` compares the date at midnight with the
current instant, so "today" counts as past whenever `tod > 0`. -/
structure NowT where
  date : Date
  tod : Nat
deriving DecidableEq

def isLeap (y : Nat) : Bool := y % 4 = 0 && (y % 100 ≠ 0 || y % 400 = 0)

def daysInMonth (y m : Nat) : Nat :=
  if m = 2 then (if isLeap y then 29 else 28)
  else if m = 4 || m = 6 || m = 9 || m = 11 then 30
  else 31

/-- Whether `datetime(y, m, d)` constructs without a `ValueError`. -/
def validDate (y m d : Nat) : Bool :=
  1 ≤ y && y ≤ 9999 && 1 ≤ m && m ≤ 12 && 1 ≤ d && d ≤ daysInMonth y m

/-- Model of `now + timedelta(days=1)`, date part. -/
def nextDay (dt : Date) : Date :=
  if dt.day < daysInMonth dt.year dt.month then ⟨dt.year, dt.month, dt.day + 1⟩
  else if dt.month < 12 then ⟨dt.year, dt.month + 1, 1⟩
  else ⟨dt.year + 1, 1, 1⟩

def dateLtB (a b : Date) : Bool :=
  a.year < b.year ||
  (a.year = b.year && (a.month < b.month ||
    (a.month = b.month && a.day < b.day)))

/-- Model of `datetime(d) < datetime.now()`: midnight of `d` is before the instant. -/
def dtBeforeNow (d : Date) (now : NowT) : Bool :=
  dateLtB d now.date || (decide (d = now.date) && decide (0 < now.tod))

/-- Two zero-padded digits, the `strftime` fields `%m` and `%d`. -/
def pad2 (n : Nat) : List Char := [dig (n / 10), dig n]

/-- Four zero-padded digits, the `strftime` field `%Y` (zero-padded to four
digits for the years `datetime` admits, as documented for `%Y`). -/
def pad4 (n : Nat) : List Char := [dig (n / 1000), dig (n / 100), dig (n / 10), dig n]

def fmtDateL (d : Date) : List Char :=
  pad2 d.month ++ ('/' :: (pad2 d.day ++ ('/' :: pad4 d.year)))

/-- Model of `strftime("%m/%d/%Y")`. -/
def fmtDate (d : Date) : String := String.mk (fmtDateL d)

/-- Exactly `k` leading digits, returning them and the rest. -/
def grabDigits : Nat → List Char → Option (List Char × List Char)
  | 0, l => some ([], l)
  | _ + 1, [] => none
  | k + 1, c :: l =>
    if isDigitC c then (grabDigits k l).map (fun dr => (c :: dr.1, dr.2))
    else none

/-- A date separator, the regex class `[/\-]`. -/
def isSepC (c : Char) : Bool := c = '/' || c = '-'

/-- The optional year group `(?:[/\-](\d{2,4}))?` after the day: a separator
followed by four, three, or two digits (greedy), else no year. -/
def matchYear (l : List Char) : Option Nat :=
  match l with
  | [] => none
  | c :: r =>
    if isSepC c then
      (((grabDigits 4 r).orElse (fun _ => grabDigits 3 r)).orElse
        (fun _ => grabDigits 2 r)).map (fun dr => valDigits dr.1)
    else none

/-- The day group `(\d{1,2})` (greedy) and then the optional year group. -/
def matchTail2 (l : List Char) : Option (Nat × Option Nat) :=
  ((grabDigits 2 l).orElse (fun _ => grabDigits 1 l)).map
    (fun dr => (valDigits dr.1, matchYear dr.2))

/-- The separator after the month group, then day and optional year. -/
def matchSepTail (l : List Char) : Option (Nat × Option Nat) :=
  match l with
  | [] => none
  | c :: r => if isSepC c then matchTail2 r else none

/-- Match the date pattern anchored at the head of `l`: month group
`(\d{1,2})` greedy with backtracking (two digits first, then one). -/
def matchAt (l : List Char) : Option (Nat × Nat × Option Nat) :=
  let one : Option (Nat × Nat × Option Nat) :=
    match grabDigits 1 l with
    | some dr => (matchSepTail dr.2).map (fun t => (valDigits dr.1, t.1, t.2))
    | none => none
  match grabDigits 2 l with
  | some dr =>
    match matchSepTail dr.2 with
    | some t => some (valDigits dr.1, t.1, t.2)
    | none => one
  | none => one

/-- Model of `DATE_PATTERN.search`: try each position left to right. -/
def searchD : List Char → Option (Nat × Nat × Option Nat)
  | [] => none
  | c :: t =>
    match matchAt (c :: t) with
    | some r => some r
    | none => searchD t

/-- The branch structure of `clean_ship_date` on the stripped input,
returning the chosen date and the defaulted flag (each Python return
formats exactly one date). -/
def cleanDateChoice (now : NowT) (l : List Char) : Date × Bool :=
  let tom := nextDay now.date
  if l = [] ∨ upperL l = "ASAP".data then (tom, true)
  else
    match searchD l with
    | none => (tom, true)
    | some (mo, dy, yopt) =>
      match yopt with
      | some yraw =>
        -- year present; 2-digit years map to 2000s / 1900s
        let y := if yraw < 100 then (if yraw < 50 then yraw + 2000 else yraw + 1900)
                 else yraw
        if validDate y mo dy then (⟨y, mo, dy⟩, false) else (tom, true)
      | none =>
        -- no year: assume current year, roll forward if already past
        let cy := now.date.year
        if validDate cy mo dy then
          let y := if dtBeforeNow ⟨cy, mo, dy⟩ now then cy + 1 else cy
          if validDate y mo dy then (⟨y, mo, dy⟩, false) else (tom, true)
        else (tom, true)

/-- Model of `clean_ship_date`: returns the `MM/DD/YYYY` string and whether the
result was defaulted to tomorrow. -/
def clean_ship_date (now : NowT) (raw_date : String) : String × Bool :=
  let r := cleanDateChoice now (pyStripL raw_date.data)
  (fmtDate r.1, r.2)

/-! ### `order-transformation.main`: the output assembler loop

An order-sheet row is a cell lookup by column name (`row.get(col, "")`); an
output row is the dict built inside the loop (`_ship_date` is the internal
ship-date note field, popped later).  `Salesperson`, `Sales Team` and `Tags`
are the run constants. -/

def Row : Type := String → String

structure OutRow where
  salesperson : String
  team : String
  name : String
  shipDate : String    -- the internal "_ship_date" field
  sku : String
  qty : Int
  extId : String
  tags : String
  repNotes : String
deriving DecidableEq

/-- The run context: the current instant, the aligned master catalog, the
detected size columns, the parent column name and the per-run constants. -/
structure AsmCtx where
  now : NowT
  master : List MasterRow
  sizeCols : List (String × String)
  parentCol : String
  salesperson : String
  team : String
  tag : String

/-- The mutable loop state: emitted rows, current order header fields,
first-item flag, pending notes, index of the order's first emitted row. -/
structure AsmState where
  acc : List OutRow
  hdrName : String
  hdrShip : String
  first : Bool
  notes : List String
  firstIdx : Option Nat

def customerOf (r : Row) : String := pyStrip (r "Customer")

/-- The enriched line items one source row produces. -/
def rowItems (ctx : AsmCtx) (r : Row) : List Item :=
  enrich_with_master ctx.master (breakout_matrix r ctx.sizeCols ctx.parentCol)

/-- The first emitted row of an order: header fields plus the item. -/
def headerRow (ctx : AsmCtx) (name ship : String) (it : Item) : OutRow :=
  ⟨ctx.salesperson, ctx.team, name, ship, it.sku, it.qty, it.extId, ctx.tag, ""⟩

/-- A subsequent row of an order: blank header fields plus the item. -/
def blankRow (it : Item) : OutRow :=
  ⟨"", "", "", "", it.sku, it.qty, it.extId, "", ""⟩

/-- Model of `output_rows[first_idx]["Rep Notes"] = " --- ".join(notes)`, applied only
when an index was recorded and at least one note was collected. -/
def patchNotes (acc : List OutRow) (idx : Option Nat) (notes : List String) :
    List OutRow :=
  match idx, notes with
  | some i, n :: ns =>
    acc.set i { acc.getD i ⟨"", "", "", "", "", 0, "", "", ""⟩ with
      repNotes := String.intercalate " --- " (n :: ns) }
  | _, _ => acc

/-- Emit the enriched items of one source row, the first item of an order
with header fields, the rest blank. -/
def emitItems (ctx : AsmCtx) (st : AsmState) : List Item → AsmState
  | [] => st
  | it :: its =>
    if st.first then
      emitItems ctx
        { st with
          firstIdx := some st.acc.length
          acc := st.acc ++ [headerRow ctx st.hdrName st.hdrShip it]
          first := false } its
    else emitItems ctx { st with acc := st.acc ++ [blankRow it] } its

/-- First phase of one loop iteration: a non-empty customer cell finalizes
the previous order's notes and resets the state for a new order. -/
def stepHeader (ctx : AsmCtx) (st : AsmState) (r : Row) : AsmState :=
  if customerOf r = "" then st
  else
    { acc := patchNotes st.acc st.firstIdx st.notes
      hdrName := customerOf r
      hdrShip := (clean_ship_date ctx.now (pyStrip (r "Ship Date"))).1
      first := true
      notes := []
      firstIdx := none }

/-- Second phase: a non-empty rep note is collected for the current order. -/
def stepNotes (st : AsmState) (r : Row) : AsmState :=
  if pyStrip (r "Rep Notes") = "" then st
  else { st with notes := st.notes ++ [pyStrip (r "Rep Notes")] }

/-- One iteration of the assembler loop over a source row: order-header
handling, note collection, then emission of the row's enriched items. -/
def asmStep (ctx : AsmCtx) (st : AsmState) (r : Row) : AsmState :=
  emitItems ctx (stepNotes (stepHeader ctx st r) r) (rowItems ctx r)

/-- The assembler: fold the loop over all order rows and finalize the last
order's notes. -/
def assemble (ctx : AsmCtx) (rows : List Row) : List OutRow :=
  let fin := rows.foldl (asmStep ctx) ⟨[], "", "", false, [], none⟩
  patchNotes fin.acc fin.firstIdx fin.notes

/-- Blank the rep-notes field (the claim under verification is about the
header fields; note threading is orthogonal). -/
def eraseNotes (r : OutRow) : OutRow := { r with repNotes := "" }

/-- Reference grouping: split the rows after the headerless prefix into
order groups, each a header row (non-empty customer) plus its following
customer-less rows. -/
def chunkOrders : List Row → List (List Row)
  | [] => []
  | r :: rs =>
    (r :: rs.takeWhile (fun x => customerOf x = "")) ::
      chunkOrders (rs.dropWhile (fun x => customerOf x = ""))
termination_by l => l.length
decreasing_by
  simp only [List.length_cons]
  exact Nat.lt_succ_of_le
    (List.dropWhile_suffix (fun x => customerOf x = "")).sublist.length_le

/-- Reference output of one order group: nothing when no line item survives
enrichment, else the first item with header fields and the rest blank. -/
def specGroup (ctx : AsmCtx) (grp : List Row) : List OutRow :=
  match grp with
  | [] => []
  | h :: _ =>
    match grp.flatMap (rowItems ctx) with
    | [] => []
    | it :: its =>
      headerRow ctx (customerOf h)
          ((clean_ship_date ctx.now (pyStrip (h "Ship Date"))).1) it ::
        its.map blankRow

/-- Reference assembler, written the way the spec describes the output:
items of the headerless prefix emitted with blank header fields, then each
order group via `specGroup`. -/
def assembleSpec (ctx : AsmCtx) (rows : List Row) : List OutRow :=
  ((rows.takeWhile (fun r => customerOf r = "")).flatMap (rowItems ctx)).map
      blankRow ++
    (chunkOrders (rows.dropWhile (fun r => customerOf r = ""))).flatMap
      (specGroup ctx)

/-- Output shape of an item run starting with flag `first`: with the flag
set, the first item carries the header fields and the rest are blank; with
it clear, every item is blank. -/
def emitSpec (ctx : AsmCtx) (first : Bool) (name ship : String)
    (items : List Item) : List OutRow :=
  if first then
    match items with
    | [] => []
    | it :: its => headerRow ctx name ship it :: its.map blankRow
  else items.map blankRow

/-! ### `order-transformation.infer_salesperson_from_filename` -/

def SALES_REP_TABLE : List (String × String) :=
  [("JC", "Jada Claiborne"),
   ("JC1", "Janelle Clasby"),
   ("AK", "Alyssa Kallal"),
   ("AG", "Angela Gonzales"),
   ("CF", "Christina Freberg")]

/-- Python `dict.get(k, d)` on the rep table. -/
def dictGet (t : List (String × String)) (k d : String) : String :=
  match t.find? (fun kv => decide (kv.1 = k)) with
  | some kv => kv.2
  | none => d

/-- Model of `stem.split('.')[0].split('-')[0]`: the filename text before the first
`'.'` and before the first `'-'`. -/
def tokenOf (filename : String) : List Char :=
  (filename.data.takeWhile (fun c => !decide (c = '.'))).takeWhile
    (fun c => !decide (c = '-'))

/-- Model of `token[:2].upper()`. -/
def pfxOf (filename : String) : String :=
  String.mk (((tokenOf filename).take 2).map upperChar)

/-- Model of `infer_salesperson_from_filename`: rep name and prefix from the first
two characters of the leading filename token. -/
def infer_salesperson_from_filename (filename : String) : String × String :=
  let pfx := pfxOf filename
  (dictGet SALES_REP_TABLE pfx "Unknown", pfx)

/-! ## Theorems -/

/-- C10: a row whose parent-SKU cell is empty produces no breakout records,
whatever the size columns hold. -/
theorem C10_empty_parent_no_breakout (cells : String → String)
    (size_cols : List (String × String)) (parent_col : String)
    (h : cells parent_col = "") :
    breakout_matrix cells size_cols parent_col = [] := by
  unfold breakout_matrix
  simp [h]

/-- Witness for C10 at a notes-only row with a non-zero size cell. -/
theorem C10_empty_parent_no_breakout_witness :
    (fun c => if c = "S QTY" then "7" else "") "Parent SKU" = "" ∧
      breakout_matrix (fun c => if c = "S QTY" then "7" else "")
        [("S QTY", "S")] "Parent SKU" = [] :=
  ⟨by decide,
   C10_empty_parent_no_breakout _ [("S QTY", "S")] "Parent SKU" (by decide)⟩

/-- C9: the salesperson is a function of the first two uppercased characters
of the filename text before the first `'.'` or `'-'` alone; the
three-character key `"JC1"` can never be selected; a file named
`"JC1-show.csv"` resolves to the `"JC"` entry. -/
theorem C9_salesperson_two_char_only :
    (∀ f g : String, pfxOf f = pfxOf g →
      infer_salesperson_from_filename f = infer_salesperson_from_filename g) ∧
    (∀ f : String, (infer_salesperson_from_filename f).1 ≠ "Janelle Clasby") ∧
    infer_salesperson_from_filename "JC1-show.csv" = ("Jada Claiborne", "JC") := by
  refine ⟨?_, ?_, by decide⟩
  · intro f g h
    simp only [infer_salesperson_from_filename, h]
  · intro f
    have hlen : (pfxOf f).length ≤ 2 := by
      simp only [pfxOf, String.length, List.length_map, List.length_take]
      exact min_le_left _ _
    simp only [infer_salesperson_from_filename, dictGet]
    cases hfind : SALES_REP_TABLE.find? (fun kv => decide (kv.1 = pfxOf f)) with
    | none => decide
    | some kv =>
      have hmem : kv ∈ SALES_REP_TABLE := List.mem_of_find?_eq_some hfind
      have hpred := List.find?_some hfind
      have hk : kv.1 = pfxOf f := by simpa using hpred
      simp only [SALES_REP_TABLE, List.mem_cons, List.not_mem_nil,
        or_false] at hmem
      rcases hmem with h | h | h | h | h <;> subst h
      · decide
      · rw [← hk] at hlen
        exact absurd hlen (by decide)
      · decide
      · decide
      · decide

/-- Witness for C9: two filenames with the same two-character prefix resolve
identically. -/
theorem C9_salesperson_two_char_only_witness :
    infer_salesperson_from_filename "JC-1.csv" =
      infer_salesperson_from_filename "JC-2.csv" :=
  C9_salesperson_two_char_only.1 "JC-1.csv" "JC-2.csv" (by decide)

/-- C1: `match_customer` tries the four tiers in strict order (exact raw
match, normalized match, contains, reverse contains), returning on the first
tier with any hit; in particular a name that exactly matches one contact's
raw name resolves to that contact's id, whatever the other tiers would
match. -/
theorem C1_contact_match_tier_priority (contacts : List Contact)
    (name : String) (h : pyStrip name ≠ "") :
    match_customer name contacts =
      ((((tier_exact contacts name).orElse
          (fun _ => tier_normalized contacts name)).orElse
          (fun _ => tier_contains contacts name)).orElse
          (fun _ => tier_reverse contacts name)).getD ("", "[No match]") ∧
    ∀ c : Contact, contacts.filter (fun x => decide (x.name = name)) = [c] →
      (match_customer name contacts).1 = c.id := by
  constructor
  · unfold match_customer tier_exact tier_normalized tier_contains tier_reverse
    rw [if_neg h]
    cases hE : contacts.filter (fun c => decide (c.name = name)) with
    | cons e es => simp [hE, Option.orElse]
    | nil =>
      cases hN : contacts.filter
          (fun c => decide (contactNorm c = normalize_name name)) with
      | cons n ns => simp [hE, hN, Option.orElse]
      | nil =>
        cases hC : contacts.filter
            (fun c => strContainsB (contactNorm c) (normalize_name name)) with
        | cons c0 cs =>
          cases cs with
          | nil => simp [hE, hN, hC, Option.orElse]
          | cons c1 cs2 => simp [hE, hN, hC, Option.orElse]
        | nil =>
          cases hR : contacts.filter
              (fun c => !decide (contactNorm c = "") &&
                strContainsB (contactNorm c) (normalize_name name)) with
          | cons r rs => simp [hE, hN, hC, hR, Option.orElse]
          | nil => simp [hE, hN, hC, hR, Option.orElse]
  · intro c hc
    unfold match_customer
    rw [if_neg h]
    rw [hc]
    by_cases hco : c.isCompany <;> simp [hco]

/-- Witness for C1: "Acme Co" exactly matches one contact while its
normalized form is contained in a different contact's normalized name; the
exact match wins. -/
theorem C1_contact_match_tier_priority_witness :
    pyStrip "Acme Co" ≠ "" ∧
    ([⟨"Acme Co", "1", false⟩, ⟨"The Acme Company", "2", true⟩] :
        List Contact).filter (fun x => decide (x.name = "Acme Co")) =
      [⟨"Acme Co", "1", false⟩] ∧
    strContainsB (contactNorm ⟨"The Acme Company", "2", true⟩)
      (normalize_name "Acme Co") = true ∧
    (match_customer "Acme Co"
      [⟨"Acme Co", "1", false⟩, ⟨"The Acme Company", "2", true⟩]).1 = "1" :=
  ⟨by decide, by decide, by decide,
   (C1_contact_match_tier_priority
      [⟨"Acme Co", "1", false⟩, ⟨"The Acme Company", "2", true⟩]
      "Acme Co" (by decide)).2 ⟨"Acme Co", "1", false⟩ (by decide)⟩

/-! Helper lemmas for the enrichment pipeline. -/

theorem lookupMaster_mem {master : List MasterRow} {p s : String}
    {mr : MasterRow} (h : lookupMaster master p s = some mr) : mr ∈ master :=
  List.mem_of_find?_eq_some h

theorem resolveRecord_qty {master : List MasterRow} {r : BRecord} {it : Item}
    (h : resolveRecord master r = some it) : it.qty = r.qty := by
  unfold resolveRecord at h
  rcases ho : lookupMaster master r.parent r.size with _ | mr
  · rw [ho] at h
    split_ifs at h with hs hl
    · rcases Option.map_eq_some'.mp h with ⟨m2, _, hm2⟩
      rw [← hm2]
      rfl
    · rcases Option.map_eq_some'.mp h with ⟨m2, _, hm2⟩
      rw [← hm2]
      rfl
  · rw [ho] at h
    cases h
    rfl

/-- The enrichment result is, up to the pass-ordering of the output, exactly
the per-record resolution: exact match first, then the single applicable
alias, else dropped. -/
theorem enrich_perm_resolve (master : List MasterRow) (b : List BRecord) :
    (enrich_with_master master b).Perm (b.filterMap (resolveRecord master)) := by
  induction b with
  | nil =>
    simp [enrich_with_master, keepSuccess, hitsS, hitsL, groupS, groupL,
      missingOf, mergedOf]
  | cons r t ih =>
    cases ho : lookupMaster master r.parent r.size with
    | some m =>
      have hK : keepSuccess master (r :: t) = mkItem r m :: keepSuccess master t := by
        simp [keepSuccess, mergedOf, ho]
      have hM : missingOf master (r :: t) = missingOf master t := by
        simp [missingOf, mergedOf, ho]
      have hres : resolveRecord master r = some (mkItem r m) := by
        simp [resolveRecord, ho]
      simp only [enrich_with_master, hK, hitsS, hitsL, groupS, groupL, hM,
        List.filterMap_cons, hres, List.cons_append]
      exact (ih.cons (mkItem r m))
    | none =>
      have hK : keepSuccess master (r :: t) = keepSuccess master t := by
        simp [keepSuccess, mergedOf, ho]
      have hM : missingOf master (r :: t) = r :: missingOf master t := by
        simp [missingOf, mergedOf, ho]
      by_cases hs : r.size = "S"
      · have hGS : groupS master (r :: t) = r :: groupS master t := by
          simp [groupS, hM, hs]
        have hGL : groupL master (r :: t) = groupL master t := by
          simp [groupL, hM, hs]
        cases hsm : lookupMaster master r.parent "SM" with
        | some m2 =>
          have hHS : hitsS master (r :: t) = mkItem r m2 :: hitsS master t := by
            simp [hitsS, hGS, hsm]
          have hHL : hitsL master (r :: t) = hitsL master t := by
            simp [hitsL, hGL]
          have hres : resolveRecord master r = some (mkItem r m2) := by
            simp only [resolveRecord]
            rw [ho, if_pos hs, hsm]
            rfl
          simp only [enrich_with_master, hK, hHS, hHL, List.filterMap_cons, hres]
          have hmid : (keepSuccess master t ++ mkItem r m2 :: hitsS master t) ++
              hitsL master t |>.Perm
              (mkItem r m2 ::
                (keepSuccess master t ++ hitsS master t ++ hitsL master t)) := by
            have h1 : (keepSuccess master t ++
                mkItem r m2 :: hitsS master t).Perm
                (mkItem r m2 :: (keepSuccess master t ++ hitsS master t)) :=
              List.perm_middle
            have h2 := h1.append_right (hitsL master t)
            simpa using h2
          exact hmid.trans (ih.cons (mkItem r m2))
        | none =>
          have hHS : hitsS master (r :: t) = hitsS master t := by
            simp [hitsS, hGS, hsm]
          have hHL : hitsL master (r :: t) = hitsL master t := by
            simp [hitsL, hGL]
          have hres : resolveRecord master r = none := by
            simp only [resolveRecord]
            rw [ho, if_pos hs, hsm]
            rfl
          simp only [enrich_with_master, hK, hHS, hHL, List.filterMap_cons, hres]
          exact ih
      · by_cases hl : r.size = "L"
        · have hGS : groupS master (r :: t) = groupS master t := by
            simp [groupS, hM, hl]
          have hGL : groupL master (r :: t) = r :: groupL master t := by
            simp [groupL, hM, hl]
          cases hlm : lookupMaster master r.parent "LXL" with
          | some m2 =>
            have hHS : hitsS master (r :: t) = hitsS master t := by
              simp [hitsS, hGS]
            have hHL : hitsL master (r :: t) = mkItem r m2 :: hitsL master t := by
              simp [hitsL, hGL, hlm]
            have hres : resolveRecord master r = some (mkItem r m2) := by
              simp only [resolveRecord]
              rw [ho, if_neg hs, if_pos hl, hlm]
              rfl
            simp only [enrich_with_master, hK, hHS, hHL, List.filterMap_cons, hres]
            have hmid : (keepSuccess master t ++ hitsS master t) ++
                (mkItem r m2 :: hitsL master t) |>.Perm
                (mkItem r m2 ::
                  (keepSuccess master t ++ hitsS master t ++ hitsL master t)) :=
              List.perm_middle
            exact hmid.trans (ih.cons (mkItem r m2))
          | none =>
            have hHS : hitsS master (r :: t) = hitsS master t := by
              simp [hitsS, hGS]
            have hHL : hitsL master (r :: t) = hitsL master t := by
              simp [hitsL, hGL, hlm]
            have hres : resolveRecord master r = none := by
              simp only [resolveRecord]
              rw [ho, if_neg hs, if_pos hl, hlm]
              rfl
            simp only [enrich_with_master, hK, hHS, hHL, List.filterMap_cons, hres]
            exact ih
        · have hGS : groupS master (r :: t) = groupS master t := by
            simp [groupS, hM, hs]
          have hGL : groupL master (r :: t) = groupL master t := by
            simp [groupL, hM, hl]
          have hres : resolveRecord master r = none := by
            simp [resolveRecord, ho, hs, hl]
          simp only [enrich_with_master, hK, hitsS, hitsL, hGS, hGL,
            List.filterMap_cons, hres]
          exact ih

theorem recQtySum_cons (r : BRecord) (l : List BRecord) :
    recQtySum (r :: l) = r.qty + recQtySum l := by
  simp [recQtySum]

theorem itemQtySum_cons (it : Item) (l : List Item) :
    itemQtySum (it :: l) = it.qty + itemQtySum l := by
  simp [itemQtySum]

/-- Matched and unmatched quantities partition the breakout total. -/
theorem resolve_qty_partition (master : List MasterRow) (b : List BRecord) :
    itemQtySum (b.filterMap (resolveRecord master)) +
      unmatchedQtySum master b = recQtySum b := by
  induction b with
  | nil => simp [itemQtySum, unmatchedQtySum, recQtySum]
  | cons r t ih =>
    cases hres : resolveRecord master r with
    | some it =>
      have hq : it.qty = r.qty := resolveRecord_qty hres
      simp only [unmatchedQtySum, List.filterMap_cons, hres, List.filter_cons,
        recQtySum_cons, itemQtySum_cons] at *
      rw [decide_eq_false (by simp [hres])]
      simp only [Bool.false_eq_true, if_false]
      omega
    | none =>
      simp only [unmatchedQtySum, List.filterMap_cons, hres, List.filter_cons,
        recQtySum_cons] at *
      rw [decide_eq_true (by simp [hres])]
      simp only [if_true, recQtySum_cons]
      omega

/-- The breakout total is the sum of the truncated non-zero numeric size
cells. -/
theorem breakout_qty_sum (cells : String → String)
    (size_cols : List (String × String)) (parent_col : String)
    (h : cells parent_col ≠ "") :
    recQtySum (breakout_matrix cells size_cols parent_col) =
      truncNonzeroCellSum cells size_cols := by
  unfold breakout_matrix truncNonzeroCellSum
  rw [if_neg h]
  induction size_cols with
  | nil => simp [recQtySum]
  | cons cs t ih =>
    cases hq : parseQty (cells cs.1) with
    | none => simpa [List.filterMap_cons, hq] using ih
    | some v =>
      by_cases hv : v.num = 0
      · simpa [List.filterMap_cons, hq, hv] using ih
      · simp only [List.filterMap_cons, hq, hv, if_false, List.map_cons,
          List.sum_cons, recQtySum_cons] at *
        simp [ih, hv]

/-- C3: enrichment joins each breakout record on (parent, size) exactly,
retries only `S → SM` and `L → LXL` for the unmatched, drops what remains
unmatched, and every output item takes `sku`, `barcode` and `ext_id` from a
master row and its quantity from the breakout record. -/
theorem C3_enrich_exact_then_alias (master : List MasterRow)
    (b : List BRecord) (hm : hasDupKey master = false) :
    (enrich_with_master master b).Perm (b.filterMap (resolveRecord master)) ∧
    ∀ it ∈ enrich_with_master master b,
      ∃ r ∈ b, ∃ mr ∈ master, it = mkItem r mr := by
  refine ⟨enrich_perm_resolve master b, ?_⟩
  intro it hit
  have hmem : it ∈ b.filterMap (resolveRecord master) :=
    ((enrich_perm_resolve master b).mem_iff).mp hit
  rcases List.mem_filterMap.mp hmem with ⟨r, hr, hres⟩
  refine ⟨r, hr, ?_⟩
  unfold resolveRecord at hres
  rcases ho : lookupMaster master r.parent r.size with _ | mr
  · rw [ho] at hres
    split_ifs at hres with hcs hcl
    · rcases Option.map_eq_some'.mp hres with ⟨m2, hm2, hit2⟩
      exact ⟨m2, lookupMaster_mem hm2, hit2.symm⟩
    · rcases Option.map_eq_some'.mp hres with ⟨m2, hm2, hit2⟩
      exact ⟨m2, lookupMaster_mem hm2, hit2.symm⟩
  · rw [ho] at hres
    cases hres
    exact ⟨mr, lookupMaster_mem ho, rfl⟩

/-- Witness for C3 at a catalog where size `S` only matches via `SM`. -/
theorem C3_enrich_exact_then_alias_witness :
    hasDupKey [⟨"P1", "SM", "P1-SM", "111", "E1", "", "", "", "", "", ""⟩] = false ∧
    (enrich_with_master
        [⟨"P1", "SM", "P1-SM", "111", "E1", "", "", "", "", "", ""⟩]
        [⟨"P1", "S", 2⟩, ⟨"P1", "M", 5⟩]).Perm
      ([⟨"P1", "S", 2⟩, ⟨"P1", "M", 5⟩].filterMap
        (resolveRecord [⟨"P1", "SM", "P1-SM", "111", "E1", "", "", "", "", "", ""⟩])) :=
  ⟨by decide,
   (C3_enrich_exact_then_alias
      [⟨"P1", "SM", "P1-SM", "111", "E1", "", "", "", "", "", ""⟩]
      [⟨"P1", "S", 2⟩, ⟨"P1", "M", 5⟩] (by decide)).1⟩

/-- C4 (amended): per order-sheet row, the enriched quantity total equals
the sum of the row's size-column values that parse as non-zero numbers,
each truncated toward zero to an integer as `int(qty)` does, minus the
quantities of the combinations that matched nothing under the exact pass
and both aliases.  Without the truncation the claim fails on fractional
cells, see the counterexample. -/
theorem C4_row_quantity_conservation (master : List MasterRow)
    (cells : String → String) (size_cols : List (String × String))
    (parent_col : String) (hm : hasDupKey master = false)
    (hp : cells parent_col ≠ "") :
    itemQtySum (enrich_with_master master
        (breakout_matrix cells size_cols parent_col)) =
      truncNonzeroCellSum cells size_cols -
        unmatchedQtySum master (breakout_matrix cells size_cols parent_col) := by
  have h1 : itemQtySum (enrich_with_master master
      (breakout_matrix cells size_cols parent_col)) =
      itemQtySum ((breakout_matrix cells size_cols parent_col).filterMap
        (resolveRecord master)) := by
    unfold itemQtySum
    exact ((enrich_perm_resolve master _).map Item.qty).sum_eq
  have h2 := resolve_qty_partition master (breakout_matrix cells size_cols parent_col)
  have h3 := breakout_qty_sum cells size_cols parent_col hp
  omega

/-- Witness for C4 (amended): cells 2.5 (size S, truncated to 2, matched
via SM), 5 (size M, unmatched), junk and zero cells; enriched total
`2 = (2 + 5) - 5`. -/
theorem C4_row_quantity_conservation_witness :
    hasDupKey [⟨"P1", "SM", "P1-SM", "111", "E1", "", "", "", "", "", ""⟩] = false ∧
    (fun c => if c = "Parent SKU" then "P1" else if c = "S QTY" then "2.5"
      else if c = "M QTY" then "5" else if c = "L QTY" then "x" else "0")
        "Parent SKU" ≠ "" ∧
    itemQtySum (enrich_with_master
        [⟨"P1", "SM", "P1-SM", "111", "E1", "", "", "", "", "", ""⟩]
        (breakout_matrix
          (fun c => if c = "Parent SKU" then "P1" else if c = "S QTY" then "2.5"
            else if c = "M QTY" then "5" else if c = "L QTY" then "x" else "0")
          [("S QTY", "S"), ("M QTY", "M"), ("L QTY", "L"), ("XL QTY", "XL")]
          "Parent SKU")) =
      truncNonzeroCellSum
          (fun c => if c = "Parent SKU" then "P1" else if c = "S QTY" then "2.5"
            else if c = "M QTY" then "5" else if c = "L QTY" then "x" else "0")
          [("S QTY", "S"), ("M QTY", "M"), ("L QTY", "L"), ("XL QTY", "XL")] -
        unmatchedQtySum [⟨"P1", "SM", "P1-SM", "111", "E1", "", "", "", "", "", ""⟩]
          (breakout_matrix
            (fun c => if c = "Parent SKU" then "P1" else if c = "S QTY" then "2.5"
              else if c = "M QTY" then "5" else if c = "L QTY" then "x" else "0")
            [("S QTY", "S"), ("M QTY", "M"), ("L QTY", "L"), ("XL QTY", "XL")]
            "Parent SKU") :=
  ⟨by decide, by decide,
   C4_row_quantity_conservation _ _ _ _ (by decide) (by decide)⟩

/-- Counterexample to C4 as stated: the size cell "0.5" parses to the
non-zero number one half, but the program emits the quantity int(0.5) = 0,
so the enriched total 0 differs from one half minus 0 (nothing is
unmatched). -/
theorem C4_counterexample :
    parseQty "0.5" = some ⟨5, 1⟩ ∧
    breakout_matrix halfCells [("S QTY", "S")] "Parent SKU" =
      [⟨"P1", "S", 0⟩] ∧
    itemQtySum (enrich_with_master halfMaster
      (breakout_matrix halfCells [("S QTY", "S")] "Parent SKU")) = 0 ∧
    unmatchedQtySum halfMaster
      (breakout_matrix halfCells [("S QTY", "S")] "Parent SKU") = 0 ∧
    ((itemQtySum (enrich_with_master halfMaster
        (breakout_matrix halfCells [("S QTY", "S")] "Parent SKU")) : ℚ) ≠
      nonzeroCellSum halfCells [("S QTY", "S")] -
        (unmatchedQtySum halfMaster
          (breakout_matrix halfCells [("S QTY", "S")] "Parent SKU") : ℚ)) := by
  have h2 : itemQtySum (enrich_with_master halfMaster
      (breakout_matrix halfCells [("S QTY", "S")] "Parent SKU")) = 0 := by
    decide
  have h4 : unmatchedQtySum halfMaster
      (breakout_matrix halfCells [("S QTY", "S")] "Parent SKU") = 0 := by
    decide
  have hp : parseQty (halfCells "S QTY") = some ⟨5, 1⟩ := by decide
  have hsum : nonzeroCellSum halfCells [("S QTY", "S")] = (1 / 2 : ℚ) := by
    simp only [nonzeroCellSum, List.map_cons, List.map_nil, List.sum_cons,
      List.sum_nil, hp, DecVal.toRat]
    norm_num
  refine ⟨by decide, by decide, h2, h4, ?_⟩
  rw [h2, h4, hsum]
  norm_num

/-! Helper lemmas for the master-catalog dedup. -/

theorem find?_append_eq {α : Type} (p : α → Bool) :
    ∀ l₁ l₂ : List α, (l₁ ++ l₂).find? p =
      ((l₁.find? p).orElse (fun _ => l₂.find? p))
  | [], l₂ => by simp [Option.orElse]
  | a :: l₁, l₂ => by
    by_cases h : p a = true
    · simp [List.find?_cons, h, Option.orElse]
    · simp only [List.cons_append, List.find?_cons,
        Bool.not_eq_true] at *
      simp [h, find?_append_eq p l₁ l₂]

theorem find?_filter_eq {α : Type} (p q : α → Bool) :
    ∀ l : List α, (l.filter q).find? p = l.find? (fun x => q x && p x)
  | [] => by simp
  | a :: l => by
    by_cases hq : q a = true
    · by_cases hp : p a = true
      · simp [List.filter_cons, hq, List.find?_cons, hp]
      · simp only [List.filter_cons, hq, if_true, List.find?_cons, hp,
          Bool.and_false, Bool.and_true]
        simp [hp, find?_filter_eq p q l]
    · simp only [List.filter_cons, List.find?_cons]
      simp [hq, find?_filter_eq p q l]

theorem find?_congr_eq {α : Type} {p q : α → Bool}
    (h : ∀ x, p x = q x) : ∀ l : List α, l.find? p = l.find? q
  | [] => rfl
  | a :: l => by
    simp only [List.find?_cons, h a, find?_congr_eq h l]

/-- Filtering a deduplicated list down to one key leaves exactly the first
occurrence of that key (none if the key was already seen). -/
theorem dedup_filter_key (k : String × String) :
    ∀ (l : List MasterRow) (seen : List (String × String)),
    (dedupKey l seen).filter (fun r => decide (keyOf r = k)) =
      if seen.any (fun x => decide (x = k)) then []
      else (l.find? (fun r => decide (keyOf r = k))).toList
  | [], seen => by
    cases h : seen.any (fun x => decide (x = k)) <;> simp [dedupKey, h]
  | r :: rs, seen => by
    simp only [dedupKey]
    by_cases hmem : seen.any (fun x => decide (x = keyOf r)) = true
    · rw [if_pos hmem, dedup_filter_key k rs seen]
      by_cases hk : keyOf r = k
      · subst hk
        rw [if_pos hmem, if_pos hmem]
      · rw [List.find?_cons, decide_eq_false hk]
    · rw [if_neg hmem, List.filter_cons]
      by_cases hk : keyOf r = k
      · subst hk
        rw [dedup_filter_key (keyOf r) rs (keyOf r :: seen)]
        have hsk : (keyOf r :: seen).any (fun x => decide (x = keyOf r)) = true := by
          simp
        rw [if_pos hsk]
        rw [if_neg hmem, List.find?_cons]
        simp
      · rw [decide_eq_false hk]
        simp only [Bool.false_eq_true, if_false]
        rw [dedup_filter_key k rs (keyOf r :: seen)]
        have hany : (keyOf r :: seen).any (fun x => decide (x = k)) =
            seen.any (fun x => decide (x = k)) := by
          simp [hk]
        rw [hany, List.find?_cons, decide_eq_false hk]

/-- No element of a deduplicated list carries an already-seen key. -/
theorem dedup_no_seen_key (k : String × String) :
    ∀ (l : List MasterRow) (seen : List (String × String)),
    seen.any (fun x => decide (x = k)) = true →
      (dedupKey l seen).any (fun r => decide (keyOf r = k)) = false
  | [], seen, _ => by simp [dedupKey]
  | r :: rs, seen, h => by
    simp only [dedupKey]
    by_cases hmem : seen.any (fun x => decide (x = keyOf r)) = true
    · rw [if_pos hmem]
      exact dedup_no_seen_key k rs seen h
    · rw [if_neg hmem]
      simp only [List.any_cons]
      have hk : decide (keyOf r = k) = false := by
        by_contra hc
        have : keyOf r = k := of_decide_eq_true (Bool.of_not_eq_false hc)
        rw [this] at hmem
        exact hmem h
      rw [hk]
      simp only [Bool.false_or]
      exact dedup_no_seen_key k rs (keyOf r :: seen) (by simp [h])

/-- Deduplication leaves no duplicate keys. -/
theorem dedup_hasDupKey_false :
    ∀ (l : List MasterRow) (seen : List (String × String)),
    hasDupKey (dedupKey l seen) = false
  | [], seen => by simp [dedupKey, hasDupKey]
  | r :: rs, seen => by
    simp only [dedupKey]
    by_cases hmem : seen.any (fun x => decide (x = keyOf r)) = true
    · rw [if_pos hmem]
      exact dedup_hasDupKey_false rs seen
    · rw [if_neg hmem]
      simp only [hasDupKey]
      rw [dedup_no_seen_key (keyOf r) rs (keyOf r :: seen) (by simp),
        dedup_hasDupKey_false rs (keyOf r :: seen)]
      rfl

/-- The duplicate check after dedup never fires: `align_master_with_dupecheck`
always succeeds, returning the deduplicated rows. -/
theorem align_eq_ok (m : List MasterRow) :
    align_master_with_dupecheck m = Except.ok (alignKept m) := by
  unfold align_master_with_dupecheck alignKept
  rw [dedup_hasDupKey_false]
  rfl

/-- C5 (amended): duplicate (parent, size) keys surviving the filter are
resolved by the preference dedup, not by aborting; the fatal-error branch
requires duplicates after dedup, which cannot occur, so the run always
proceeds with a key-unique catalog. -/
theorem C5_align_never_aborts (m : List MasterRow) :
    align_master_with_dupecheck m = Except.ok (alignKept m) ∧
      hasDupKey (alignKept m) = false :=
  ⟨align_eq_ok m, dedup_hasDupKey_false _ _⟩

/-- Counterexample to C5 as stated: a master table whose filtering stage
leaves two rows with the same (parent, size) key, on which the run does not
abort; it silently keeps one preferred row. -/
theorem C5_counterexample :
    (filteredStage
        [⟨"P2", "M", "P2-M-A", "", "", "", "", "", "", "", ""⟩,
         ⟨"P2", "M", "P2-M-B", "", "", "", "", "", "", "", ""⟩]).map keyOf =
      [("P2", "M"), ("P2", "M")] ∧
    align_master_with_dupecheck
        [⟨"P2", "M", "P2-M-A", "", "", "", "", "", "", "", ""⟩,
         ⟨"P2", "M", "P2-M-B", "", "", "", "", "", "", "", ""⟩] =
      Except.ok [⟨"P2", "M", "P2-M-A", "", "", "", "", "", "", "", ""⟩] := by
  constructor
  · decide
  · rfl

/-- C2 (amended): among the filtered rows sharing a key, dedup keeps exactly
the first row of the highest non-empty preference class, where the classes
compare EXT_ID-presence first and then UPC-presence (a row with both
outranks a row with only EXT_ID); rows equal on both flags keep original
order. -/
theorem C2_dedup_preference (m : List MasterRow) (k : String × String) :
    ∃ res, align_master_with_dupecheck m = Except.ok res ∧
      res.filter (fun r => decide (keyOf r = k)) =
        (preferredOf ((filteredStage m).filter
          (fun r => decide (keyOf r = k)))).toList := by
  refine ⟨alignKept m, align_eq_ok m, ?_⟩
  unfold alignKept
  rw [dedup_filter_key k (sortPref (filteredStage m)) []]
  simp only [List.any_nil, Bool.false_eq_true, if_false]
  unfold sortPref preferredOf
  rw [find?_append_eq, find?_append_eq, find?_append_eq]
  rw [find?_filter_eq, find?_filter_eq, find?_filter_eq, find?_filter_eq,
    find?_filter_eq, find?_filter_eq, find?_filter_eq, find?_filter_eq]
  rw [find?_congr_eq (fun x => Bool.and_comm _ _),
    find?_congr_eq (q := fun r => (hasExtB r && !hasUpcB r) && decide (keyOf r = k))
      (fun x => Bool.and_comm _ _),
    find?_congr_eq (q := fun r => (!hasExtB r && hasUpcB r) && decide (keyOf r = k))
      (fun x => Bool.and_comm _ _),
    find?_congr_eq (q := fun r => (!hasExtB r && !hasUpcB r) && decide (keyOf r = k))
      (fun x => Bool.and_comm _ _)]

/-- Counterexample to C2 as stated: two filtered rows share a key and both
have a non-empty EXT_ID (the same three-level preference rank), yet dedup
keeps the second — UPC presence, not original order, breaks the tie. -/
theorem C2_counterexample :
    hasExtB ⟨"P1", "S", "P1-S-A", "", "E0", "", "", "", "", "", ""⟩ = true ∧
    hasExtB ⟨"P1", "S", "P1-S-B", "U1", "E1", "", "", "", "", "", ""⟩ = true ∧
    keyOf ⟨"P1", "S", "P1-S-A", "", "E0", "", "", "", "", "", ""⟩ =
      keyOf ⟨"P1", "S", "P1-S-B", "U1", "E1", "", "", "", "", "", ""⟩ ∧
    align_master_with_dupecheck
        [⟨"P1", "S", "P1-S-A", "", "E0", "", "", "", "", "", ""⟩,
         ⟨"P1", "S", "P1-S-B", "U1", "E1", "", "", "", "", "", ""⟩] =
      Except.ok [⟨"P1", "S", "P1-S-B", "U1", "E1", "", "", "", "", "", ""⟩] := by
  refine ⟨by decide, by decide, by decide, by rfl⟩

/-! Helper lemmas for the ship-date normalizer. -/

theorem dig_isDigit (n : Nat) : isDigitC (dig n) = true := by
  have h : n % 10 < 10 := Nat.mod_lt _ (by norm_num)
  unfold dig isDigitC
  generalize hk : n % 10 = k at h
  interval_cases k <;> decide

theorem dig_val (n : Nat) : digVal (dig n) = n % 10 := by
  have h : n % 10 < 10 := Nat.mod_lt _ (by norm_num)
  unfold dig digVal
  generalize hk : n % 10 = k at h
  interval_cases k <;> decide

theorem dig_notSpace (n : Nat) : isPySpace (dig n) = false := by
  have h : n % 10 < 10 := Nat.mod_lt _ (by norm_num)
  unfold dig isPySpace
  generalize hk : n % 10 = k at h
  interval_cases k <;> decide

theorem valDigits_pad2 (n : Nat) (h : n < 100) : valDigits (pad2 n) = n := by
  simp only [valDigits, pad2, List.foldl_cons, List.foldl_nil, dig_val]
  omega

theorem valDigits_pad4 (n : Nat) (h : n < 10000) : valDigits (pad4 n) = n := by
  simp only [valDigits, pad4, List.foldl_cons, List.foldl_nil, dig_val]
  omega

theorem grab2_pad2 (n : Nat) (rest : List Char) :
    grabDigits 2 (pad2 n ++ rest) = some (pad2 n, rest) := by
  simp [pad2, grabDigits, dig_isDigit]

theorem grab4_pad4 (n : Nat) :
    grabDigits 4 (pad4 n) = some (pad4 n, []) := by
  simp [pad4, grabDigits, dig_isDigit]

/-- The date pattern matches a formatted date at its head, recovering the
month, day and year values. -/
theorem matchAt_fmt (m d y : Nat) (hm : m < 100) (hd : d < 100)
    (hy : y < 10000) :
    matchAt (fmtDateL ⟨y, m, d⟩) = some (m, d, some y) := by
  have h4 : grabDigits 4 (pad4 y) = some (pad4 y, []) := grab4_pad4 y
  have hyear : matchYear ('/' :: pad4 y) = some y := by
    simp only [matchYear, isSepC]
    simp [h4, Option.orElse, valDigits_pad4 y hy]
  have htail : matchTail2 (pad2 d ++ '/' :: pad4 y) = some (d, some y) := by
    simp only [matchTail2]
    rw [grab2_pad2]
    simp [Option.orElse, valDigits_pad2 d hd, hyear]
  have hsep : matchSepTail ('/' :: (pad2 d ++ '/' :: pad4 y)) =
      some (d, some y) := by
    simp [matchSepTail, isSepC, htail]
  simp only [matchAt, fmtDateL]
  rw [grab2_pad2]
  simp [hsep, valDigits_pad2 m hm]

theorem pyStripL_eq_self {l : List Char}
    (h1 : ∀ c, l.head? = some c → isPySpace c = false)
    (h2 : ∀ c, l.getLast? = some c → isPySpace c = false) :
    pyStripL l = l := by
  unfold pyStripL
  cases l with
  | nil => simp
  | cons a t =>
    have ha : isPySpace a = false := h1 a rfl
    have hdrop1 : List.dropWhile isPySpace (a :: t) = a :: t := by
      rw [List.dropWhile_cons, ha]
      simp
    rcases hrev : (a :: t).reverse with _ | ⟨b, bs⟩
    · have := congrArg List.length hrev
      simp at this
    · have hb : isPySpace b = false := by
        apply h2
        rw [← List.head?_reverse, hrev]
        rfl
      have hdrop2 : List.dropWhile isPySpace (b :: bs) = b :: bs := by
        rw [List.dropWhile_cons, hb]
        simp
      rw [hdrop1, hrev, hdrop2, ← hrev, List.reverse_reverse]

theorem fmtDateL_getLast (dt : Date) :
    (fmtDateL dt).getLast? = some (dig dt.year) := by
  have h : fmtDateL dt =
      [dig (dt.month / 10), dig dt.month, '/', dig (dt.day / 10), dig dt.day,
       '/', dig (dt.year / 1000), dig (dt.year / 100), dig (dt.year / 10)] ++
        [dig dt.year] := by
    simp [fmtDateL, pad2, pad4]
  rw [h, List.getLast?_concat]

theorem pyStripL_fmtDateL (dt : Date) : pyStripL (fmtDateL dt) = fmtDateL dt := by
  apply pyStripL_eq_self
  · intro c hc
    have : fmtDateL dt = dig (dt.month / 10) :: (dig dt.month :: '/' ::
        (pad2 dt.day ++ '/' :: pad4 dt.year)) := by
      simp [fmtDateL, pad2]
    rw [this] at hc
    cases hc
    exact dig_notSpace _
  · intro c hc
    rw [fmtDateL_getLast dt] at hc
    cases hc
    exact dig_notSpace _

theorem fmtDateL_length (dt : Date) : (fmtDateL dt).length = 10 := by
  simp [fmtDateL, pad2, pad4]

theorem fmtDateL_not_default_case (dt : Date) :
    ¬(fmtDateL dt = [] ∨ upperL (fmtDateL dt) = "ASAP".data) := by
  rintro (h | h)
  · have := congrArg List.length h
    rw [fmtDateL_length] at this
    simp at this
  · have := congrArg List.length h
    rw [upperL, List.length_map, fmtDateL_length] at this
    simp [String.data] at this

theorem searchD_fmtDateL (m d y : Nat) (hm : m < 100) (hd : d < 100)
    (hy : y < 10000) :
    searchD (fmtDateL ⟨y, m, d⟩) = some (m, d, some y) := by
  have hA := matchAt_fmt m d y hm hd hy
  have hform : fmtDateL ⟨y, m, d⟩ = dig (m / 10) :: (dig m :: '/' ::
      (pad2 d ++ '/' :: pad4 y)) := by
    simp [fmtDateL, pad2]
  rw [hform] at hA ⊢
  simp only [searchD, hA]

theorem daysInMonth_le (y m : Nat) : daysInMonth y m ≤ 31 := by
  unfold daysInMonth
  split_ifs <;> omega

theorem validDate_bounds {y m d : Nat} (h : validDate y m d = true) :
    1 ≤ y ∧ y ≤ 9999 ∧ 1 ≤ m ∧ m ≤ 12 ∧ 1 ≤ d ∧ d ≤ 31 := by
  have hd31 := daysInMonth_le y m
  simp only [validDate, Bool.and_eq_true, decide_eq_true_eq] at h
  omega

/-- C6 (amended): `clean_ship_date` is idempotent on every valid calendar
date with a three-or-more-digit year rendered in the zero-padded
`MM/DD/YYYY` format — in particular on every string it outputs, since parsed
two-digit years are mapped to 1900–2049 and all other output years carry at
least three digits.  (Years below 100 are excluded: their rendering
re-parses as a two-digit year, see the counterexample.) -/
theorem C6_ship_date_idempotent (now : NowT) (y m d : Nat) (hy : 100 ≤ y)
    (hv : validDate y m d = true) :
    clean_ship_date now (fmtDate ⟨y, m, d⟩) = (fmtDate ⟨y, m, d⟩, false) := by
  obtain ⟨h1, h2, h3, h4, h5, h6⟩ := validDate_bounds hv
  have hstrip : pyStripL (fmtDate ⟨y, m, d⟩).data = fmtDateL ⟨y, m, d⟩ :=
    pyStripL_fmtDateL ⟨y, m, d⟩
  have hchoice : cleanDateChoice now (fmtDateL ⟨y, m, d⟩) = (⟨y, m, d⟩, false) := by
    unfold cleanDateChoice
    rw [if_neg (fmtDateL_not_default_case ⟨y, m, d⟩),
      searchD_fmtDateL m d y (by omega) (by omega) (by omega)]
    simp [show ¬y < 100 by omega, hv]
  simp only [clean_ship_date, hstrip, hchoice]

/-- Witness for C6 (amended) at `12/25/2024`. -/
theorem C6_ship_date_idempotent_witness :
    100 ≤ 2024 ∧ validDate 2024 12 25 = true ∧
    clean_ship_date ⟨⟨2026, 10, 12⟩, 3600⟩ (fmtDate ⟨2024, 12, 25⟩) =
      (fmtDate ⟨2024, 12, 25⟩, false) :=
  ⟨by decide, by decide,
   C6_ship_date_idempotent ⟨⟨2026, 10, 12⟩, 3600⟩ 2024 12 25 (by decide)
     (by decide)⟩

/-- Counterexample to C6 as stated: the valid calendar date June 15 of year
49, rendered `MM/DD/YYYY` as "06/15/0049", is not a fixed point — the year
field re-parses as the two-digit year 49 and is mapped to 2049. -/
theorem C6_counterexample :
    validDate 49 6 15 = true ∧
    fmtDate ⟨49, 6, 15⟩ = "06/15/0049" ∧
    clean_ship_date ⟨⟨2026, 10, 12⟩, 3600⟩ "06/15/0049" =
      ("06/15/2049", false) ∧
    ("06/15/2049" : String) ≠ "06/15/0049" := by
  refine ⟨by decide, by decide, by decide, by decide⟩

/-- C7: the defaulting and no-year rules of `clean_ship_date`: empty or
case-insensitive ASAP input, a patternless input, and an invalid calendar
date all default to tomorrow with the flag set; a pattern without a year
gets the current year, rolled forward by one when the date is already past;
and every output is a formatted `MM/DD/YYYY` date. -/
theorem C7_ship_date_rules (now : NowT) (raw : String) :
    (pyStripL raw.data = [] ∨ upperL (pyStripL raw.data) = "ASAP".data →
      clean_ship_date now raw = (fmtDate (nextDay now.date), true)) ∧
    (searchD (pyStripL raw.data) = none →
      clean_ship_date now raw = (fmtDate (nextDay now.date), true)) ∧
    (∀ mo dy yraw,
      ¬(pyStripL raw.data = [] ∨ upperL (pyStripL raw.data) = "ASAP".data) →
      searchD (pyStripL raw.data) = some (mo, dy, some yraw) →
      validDate (if yraw < 100 then (if yraw < 50 then yraw + 2000
        else yraw + 1900) else yraw) mo dy = false →
      clean_ship_date now raw = (fmtDate (nextDay now.date), true)) ∧
    (∀ mo dy,
      ¬(pyStripL raw.data = [] ∨ upperL (pyStripL raw.data) = "ASAP".data) →
      searchD (pyStripL raw.data) = some (mo, dy, none) →
      validDate now.date.year mo dy = false →
      clean_ship_date now raw = (fmtDate (nextDay now.date), true)) ∧
    (∀ mo dy,
      ¬(pyStripL raw.data = [] ∨ upperL (pyStripL raw.data) = "ASAP".data) →
      searchD (pyStripL raw.data) = some (mo, dy, none) →
      validDate now.date.year mo dy = true →
      dtBeforeNow ⟨now.date.year, mo, dy⟩ now = false →
      clean_ship_date now raw = (fmtDate ⟨now.date.year, mo, dy⟩, false)) ∧
    (∀ mo dy,
      ¬(pyStripL raw.data = [] ∨ upperL (pyStripL raw.data) = "ASAP".data) →
      searchD (pyStripL raw.data) = some (mo, dy, none) →
      validDate now.date.year mo dy = true →
      dtBeforeNow ⟨now.date.year, mo, dy⟩ now = true →
      validDate (now.date.year + 1) mo dy = true →
      clean_ship_date now raw = (fmtDate ⟨now.date.year + 1, mo, dy⟩, false)) ∧
    (∃ dt : Date, ∃ b : Bool, clean_ship_date now raw = (fmtDate dt, b)) := by
  refine ⟨?_, ?_, ?_, ?_, ?_, ?_,
    ⟨(cleanDateChoice now (pyStripL raw.data)).1,
     (cleanDateChoice now (pyStripL raw.data)).2, rfl⟩⟩
  · intro hc
    simp only [clean_ship_date, cleanDateChoice, if_pos hc]
  · intro hs
    by_cases hc : pyStripL raw.data = [] ∨ upperL (pyStripL raw.data) = "ASAP".data
    · simp only [clean_ship_date, cleanDateChoice, if_pos hc]
    · simp only [clean_ship_date, cleanDateChoice, if_neg hc, hs]
  · intro mo dy yraw hc hs hv
    simp only [clean_ship_date, cleanDateChoice, if_neg hc, hs, hv]
    simp
  · intro mo dy hc hs hv
    simp only [clean_ship_date, cleanDateChoice, if_neg hc, hs, hv]
    simp
  · intro mo dy hc hs hv hroll
    simp only [clean_ship_date, cleanDateChoice, if_neg hc, hs, hv, hroll]
    simp [hv]
  · intro mo dy hc hs hv hroll hv1
    simp only [clean_ship_date, cleanDateChoice, if_neg hc, hs, hv, hroll]
    simp [hv1]

/-- Witness for C7: the empty input defaults to tomorrow. -/
theorem C7_ship_date_rules_witness :
    clean_ship_date ⟨⟨2026, 10, 12⟩, 3600⟩ "" =
      (fmtDate (nextDay ⟨2026, 10, 12⟩), true) :=
  (C7_ship_date_rules ⟨⟨2026, 10, 12⟩, 3600⟩ "").1 (Or.inl rfl)

/-! Helper lemmas for the output assembler. -/

theorem map_set_getD {α β : Type} (f : α → β) :
    ∀ (l : List α) (i : Nat) (d a : α), f a = f (l.getD i d) →
      (l.set i a).map f = l.map f
  | [], _, _, _, _ => by simp
  | x :: xs, 0, d, a, h => by
    simp only [List.getD_cons_zero] at h
    simp [List.set, h]
  | x :: xs, i + 1, d, a, h => by
    simp only [List.getD_cons_succ] at h
    simp [List.set, map_set_getD f xs i d a h]

theorem patchNotes_erase (acc : List OutRow) (idx : Option Nat)
    (notes : List String) :
    (patchNotes acc idx notes).map eraseNotes = acc.map eraseNotes := by
  unfold patchNotes
  cases idx with
  | none => cases notes <;> rfl
  | some i =>
    cases notes with
    | nil => rfl
    | cons n ns => exact map_set_getD eraseNotes acc i _ _ rfl

theorem eraseNotes_headerRow (ctx : AsmCtx) (name ship : String) (it : Item) :
    eraseNotes (headerRow ctx name ship it) = headerRow ctx name ship it := rfl

theorem eraseNotes_blankRow (it : Item) :
    eraseNotes (blankRow it) = blankRow it := rfl

theorem stepNotes_acc (st : AsmState) (r : Row) : (stepNotes st r).acc = st.acc := by
  unfold stepNotes
  split <;> rfl

theorem stepNotes_first (st : AsmState) (r : Row) :
    (stepNotes st r).first = st.first := by
  unfold stepNotes
  split <;> rfl

theorem stepNotes_hdrName (st : AsmState) (r : Row) :
    (stepNotes st r).hdrName = st.hdrName := by
  unfold stepNotes
  split <;> rfl

theorem stepNotes_hdrShip (st : AsmState) (r : Row) :
    (stepNotes st r).hdrShip = st.hdrShip := by
  unfold stepNotes
  split <;> rfl

theorem isEmpty_append {α : Type} (l₁ l₂ : List α) :
    (l₁ ++ l₂).isEmpty = (l₁.isEmpty && l₂.isEmpty) := by
  cases l₁ <;> simp [List.isEmpty]

/-- Effect of emitting one row's items on the erased output and the state. -/
theorem emitItems_spec (ctx : AsmCtx) :
    ∀ (items : List Item) (st : AsmState),
    ((emitItems ctx st items).acc.map eraseNotes =
      st.acc.map eraseNotes ++
        emitSpec ctx st.first st.hdrName st.hdrShip items) ∧
    (emitItems ctx st items).first = (st.first && items.isEmpty) ∧
    (emitItems ctx st items).hdrName = st.hdrName ∧
    (emitItems ctx st items).hdrShip = st.hdrShip
  | [], st => by
    cases h : st.first <;> simp [emitItems, emitSpec, h]
  | it :: its, st => by
    cases h : st.first with
    | true =>
      have ih := emitItems_spec ctx its
        { st with
          firstIdx := some st.acc.length
          acc := st.acc ++ [headerRow ctx st.hdrName st.hdrShip it]
          first := false }
      obtain ⟨ih1, ih2, ih3, ih4⟩ := ih
      constructor
      · simp only [emitItems, h, if_true, ih1, List.map_append, emitSpec]
        simp [emitSpec, eraseNotes_headerRow]
      · refine ⟨?_, ?_, ?_⟩
        · simp only [emitItems, h, if_true, ih2]
          simp
        · simp only [emitItems, h, if_true, ih3]
        · simp only [emitItems, h, if_true, ih4]
    | false =>
      have ih := emitItems_spec ctx its
        { st with acc := st.acc ++ [blankRow it] }
      obtain ⟨ih1, ih2, ih3, ih4⟩ := ih
      rw [h] at ih1 ih2 ih3 ih4
      constructor
      · simp only [emitItems, h, Bool.false_eq_true, if_false, ih1,
          List.map_append, emitSpec]
        simp [eraseNotes_blankRow]
      · refine ⟨?_, ?_, ?_⟩
        · simp only [emitItems, h, Bool.false_eq_true, if_false, ih2]
          simp
        · simp only [emitItems, h, Bool.false_eq_true, if_false, ih3]
        · simp only [emitItems, h, Bool.false_eq_true, if_false, ih4]

/-- Emission runs compose. -/
theorem emitSpec_append (ctx : AsmCtx) (name ship : String) :
    ∀ (first : Bool) (items₁ items₂ : List Item),
    emitSpec ctx first name ship items₁ ++
      emitSpec ctx (first && items₁.isEmpty) name ship items₂ =
    emitSpec ctx first name ship (items₁ ++ items₂) := by
  intro first items₁ items₂
  cases first with
  | false => simp [emitSpec]
  | true =>
    cases items₁ with
    | nil => simp [emitSpec]
    | cons it its => simp [emitSpec]

/-- Folding the loop over customer-less rows from any state. -/
theorem run_empty_customers (ctx : AsmCtx) :
    ∀ (rows : List Row) (st : AsmState),
    (∀ r ∈ rows, customerOf r = "") →
    ((rows.foldl (asmStep ctx) st).acc.map eraseNotes =
      st.acc.map eraseNotes ++
        emitSpec ctx st.first st.hdrName st.hdrShip
          (rows.flatMap (rowItems ctx))) ∧
    (rows.foldl (asmStep ctx) st).first =
      (st.first && (rows.flatMap (rowItems ctx)).isEmpty) ∧
    (rows.foldl (asmStep ctx) st).hdrName = st.hdrName ∧
    (rows.foldl (asmStep ctx) st).hdrShip = st.hdrShip
  | [], st, _ => by
    cases h : st.first <;> simp [emitSpec, h]
  | r :: rs, st, hall => by
    have hr : customerOf r = "" := hall r (List.mem_cons_self r rs)
    have hstep : asmStep ctx st r =
        emitItems ctx (stepNotes st r) (rowItems ctx r) := by
      unfold asmStep stepHeader
      rw [if_pos hr]
    have he := emitItems_spec ctx (rowItems ctx r) (stepNotes st r)
    obtain ⟨he1, he2, he3, he4⟩ := he
    simp only [stepNotes_acc, stepNotes_first, stepNotes_hdrName,
      stepNotes_hdrShip] at he1 he2 he3 he4
    have ih := run_empty_customers ctx rs (asmStep ctx st r)
      (fun x hx => hall x (List.mem_cons_of_mem r hx))
    obtain ⟨ih1, ih2, ih3, ih4⟩ := ih
    rw [hstep] at ih1 ih2 ih3 ih4
    refine ⟨?_, ?_, ?_, ?_⟩
    · rw [List.foldl_cons, hstep, ih1, he1, he2, he3, he4, List.append_assoc,
        emitSpec_append, List.flatMap_cons]
    · rw [List.foldl_cons, hstep, ih2, he2, List.flatMap_cons,
        isEmpty_append, Bool.and_assoc]
    · rw [List.foldl_cons, hstep, ih3, he3]
    · rw [List.foldl_cons, hstep, ih4, he4]

theorem specGroup_eq_emitSpec (ctx : AsmCtx) (h : Row) (tl : List Row) :
    specGroup ctx (h :: tl) =
      emitSpec ctx true (customerOf h)
        ((clean_ship_date ctx.now (pyStrip (h "Ship Date"))).1)
        ((h :: tl).flatMap (rowItems ctx)) := by
  unfold specGroup emitSpec
  cases hi : (h :: tl).flatMap (rowItems ctx) <;> simp

/-- Folding the loop over one order group from any state. -/
theorem run_group (ctx : AsmCtx) (h : Row) (tl : List Row)
    (hhead : customerOf h ≠ "") (htl : ∀ r ∈ tl, customerOf r = "")
    (st : AsmState) :
    ((h :: tl).foldl (asmStep ctx) st).acc.map eraseNotes =
      st.acc.map eraseNotes ++ specGroup ctx (h :: tl) := by
  have hstep : asmStep ctx st h =
      emitItems ctx
        (stepNotes
          { acc := patchNotes st.acc st.firstIdx st.notes
            hdrName := customerOf h
            hdrShip := (clean_ship_date ctx.now (pyStrip (h "Ship Date"))).1
            first := true
            notes := []
            firstIdx := none } h)
        (rowItems ctx h) := by
    unfold asmStep stepHeader
    rw [if_neg hhead]
  have he := emitItems_spec ctx (rowItems ctx h)
    (stepNotes
      { acc := patchNotes st.acc st.firstIdx st.notes
        hdrName := customerOf h
        hdrShip := (clean_ship_date ctx.now (pyStrip (h "Ship Date"))).1
        first := true
        notes := []
        firstIdx := none } h)
  obtain ⟨he1, he2, he3, he4⟩ := he
  simp only [stepNotes_acc, stepNotes_first, stepNotes_hdrName,
    stepNotes_hdrShip] at he1 he2 he3 he4
  have hrun := run_empty_customers ctx tl (asmStep ctx st h) htl
  obtain ⟨ih1, _, _, _⟩ := hrun
  rw [hstep] at ih1
  rw [List.foldl_cons, hstep, ih1, he1, he2, he3, he4, patchNotes_erase,
    List.append_assoc, specGroup_eq_emitSpec]
  rw [List.flatMap_cons, ← emitSpec_append]

theorem head_dropWhile_ne {α : Type} (p : α → Bool) (l : List α) :
    ∀ c, (l.dropWhile p).head? = some c → p c = false := by
  induction l with
  | nil => intro c hc; simp at hc
  | cons a t ih =>
    intro c hc
    rw [List.dropWhile_cons] at hc
    by_cases ha : p a = true
    · rw [if_pos ha] at hc
      exact ih c hc
    · rw [if_neg ha] at hc
      cases hc
      exact Bool.not_eq_true _ ▸ ha

theorem mem_takeWhile_sat {α : Type} (p : α → Bool) :
    ∀ (l : List α) (a : α), a ∈ l.takeWhile p → p a = true := by
  intro l
  induction l with
  | nil => intro a ha; simp [List.takeWhile] at ha
  | cons x t ih =>
    intro a ha
    rw [List.takeWhile_cons] at ha
    by_cases hx : p x = true
    · rw [if_pos hx] at ha
      rcases List.mem_cons.mp ha with h | h
      · rw [h]; exact hx
      · exact ih a h
    · rw [if_neg hx] at ha
      simp at ha

/-- Folding the loop over a sequence of order groups from any state. -/
theorem run_chunks (ctx : AsmCtx) :
    ∀ (n : Nat) (rows : List Row), rows.length ≤ n →
    (∀ c, rows.head? = some c → customerOf c ≠ "") →
    ∀ st : AsmState,
    ((rows.foldl (asmStep ctx) st).acc.map eraseNotes =
      st.acc.map eraseNotes ++
        (chunkOrders rows).flatMap (specGroup ctx)) := by
  intro n
  induction n with
  | zero =>
    intro rows hlen _ st
    have : rows = [] := List.length_eq_zero.mp (Nat.le_zero.mp hlen)
    subst this
    simp [chunkOrders]
  | succ n ih =>
    intro rows hlen hhead st
    cases rows with
    | nil => simp [chunkOrders]
    | cons r rs =>
      have hr : customerOf r ≠ "" := hhead r rfl
      have hsplit : r :: rs =
          (r :: rs.takeWhile (fun x => customerOf x = "")) ++
            rs.dropWhile (fun x => customerOf x = "") := by
        rw [List.cons_append, List.takeWhile_append_dropWhile]
      have htl : ∀ x ∈ rs.takeWhile (fun x => customerOf x = ""),
          customerOf x = "" := by
        intro x hx
        exact of_decide_eq_true
          (mem_takeWhile_sat (fun x => customerOf x = "") rs x hx)
      have hdlen : (rs.dropWhile (fun x => customerOf x = "")).length ≤ n := by
        have h1 : (rs.dropWhile (fun x => customerOf x = "")).length ≤
            rs.length :=
          (List.dropWhile_suffix _).sublist.length_le
        simp only [List.length_cons] at hlen
        omega
      have hdhead : ∀ c,
          (rs.dropWhile (fun x => customerOf x = "")).head? = some c →
            customerOf c ≠ "" := by
        intro c hc
        have := head_dropWhile_ne (fun x => customerOf x = "") rs c hc
        intro hcontra
        simp [hcontra] at this
      conv_lhs => rw [hsplit]
      rw [List.foldl_append]
      rw [ih (rs.dropWhile (fun x => customerOf x = "")) hdlen hdhead]
      rw [run_group ctx r (rs.takeWhile (fun x => customerOf x = "")) hr htl st]
      rw [chunkOrders]
      simp [List.append_assoc]

/-- C8: erased of the rep-notes field (which the claim does not cover), the
assembled output is exactly its per-order specification: the headerless
prefix contributes blank rows; each order group (delimited by a non-empty
customer cell) contributes nothing when no line item survives enrichment,
and otherwise its first emitted row alone carries the header fields
(salesperson, sales team, customer name, ship-date note, tags), all later
rows of the group carrying blank header fields. -/
theorem C8_assembler_grouping (ctx : AsmCtx) (rows : List Row) :
    (assemble ctx rows).map eraseNotes = assembleSpec ctx rows := by
  unfold assemble assembleSpec
  rw [patchNotes_erase]
  have hsplit : rows =
      rows.takeWhile (fun x => customerOf x = "") ++
        rows.dropWhile (fun x => customerOf x = "") :=
    (List.takeWhile_append_dropWhile ..).symm
  conv_lhs => rw [hsplit]
  rw [List.foldl_append]
  have hpre := run_empty_customers ctx
    (rows.takeWhile (fun x => customerOf x = ""))
    ⟨[], "", "", false, [], none⟩
    (fun x hx => of_decide_eq_true
      (mem_takeWhile_sat (fun x => customerOf x = "") rows x hx))
  obtain ⟨hp1, hp2, _, _⟩ := hpre
  have hdhead : ∀ c,
      (rows.dropWhile (fun x => customerOf x = "")).head? = some c →
        customerOf c ≠ "" := by
    intro c hc
    have := head_dropWhile_ne (fun x => customerOf x = "") rows c hc
    intro hcontra
    simp [hcontra] at this
  rw [run_chunks ctx (rows.dropWhile (fun x => customerOf x = "")).length _
    le_rfl hdhead]
  rw [hp1]
  simp [emitSpec]

end LocalBI
